import Mathlib

/-!
Verification of the cody enhanced-context subsystem.

This file gives a shallow embedding of:
* `fuseContext` — the context fusion engine (chat/chat-view/context.ts),
* `getPriorityContext` and its helpers (`getCurrentSelectionContext`,
  `getVisibleEditorContext`, `needsUserAttentionContext`,
  `needsReadmeContext`, `extractQuestion`),
* `getEnhancedContextFused` with `retrieveContextGracefully`,
* `IgnoreHelper` (`setIgnoreFiles` / `isIgnored` / `ignoreFileEffectiveDirectory`),
* `FeatureFlagProvider` (`evaluateFeatureFlag`, `onFeatureFlagChanged`,
  `refreshFeatureFlags`, `notifyFeatureFlagChanged`,
  `computeFeatureFlagSnapshot`),
and proves the stated properties about them.

Numeric convention: the source computes the keyword budget cap as
`maxChars * 0.8`.  We model character counts and budgets as `Nat` and the
cap comparison `charsUsed + len <= maxChars * 0.8` exactly, by
cross-multiplication: `5 * (charsUsed + len) <= 4 * maxChars`.  To let the
two greedy loops share one definition, a cap is passed scaled by 5
("fifths"): the keyword loop uses `4 * maxChars` (when embeddings items
exist) or `5 * maxChars`, the embeddings loop uses `5 * maxChars`.
-/

namespace Cody

/-- A retrieved context snippet (`ContextItem` in the source).  The range is
four numbers (start line/character, end line/character) when present. -/
structure ContextItem where
  uri : String
  text : String
  source : String
  range : Option (Nat × Nat × Nat × Nat) := none
  deriving DecidableEq, Repr

/-- Total character count of a list of items. -/
def totalChars (items : List ContextItem) : Nat :=
  (items.map (fun it => it.text.length)).sum

/-- One greedy first-fit pass of `fuseContext`: iterate the items in order,
include an item exactly when the running character count plus its length
stays within the cap (`cap5` is the cap scaled by 5, see the header).
Returns the included items and the final running count. -/
def greedyFuse (items : List ContextItem) (cap5 : Nat) (charsUsed : Nat) :
    List ContextItem × Nat :=
  match items with
  | [] => ([], charsUsed)
  | item :: rest =>
    let len := item.text.length
    if 5 * (charsUsed + len) ≤ cap5 then
      let r := greedyFuse rest cap5 (charsUsed + len)
      (item :: r.1, r.2)
    else
      greedyFuse rest cap5 charsUsed

/-- `fuseContext` from the source: fill up to 80% of the budget with keyword
items (100% when there are no embeddings items), then fill the remainder of
the full budget with embeddings items, threading the running count. -/
def fuseContext (keywordItems embeddingsItems : List ContextItem)
    (maxChars : Nat) : List ContextItem :=
  let maxKeywordChars5 :=
    if embeddingsItems.length > 0 then 4 * maxChars else 5 * maxChars
  let kw := greedyFuse keywordItems maxKeywordChars5 0
  let emb := greedyFuse embeddingsItems (5 * maxChars) kw.2
  kw.1 ++ emb.1

/-- The keyword item of the spec scenario: 90 characters of text. -/
def kwItem90 : ContextItem :=
  { uri := "file:///a", text := String.mk (List.replicate 90 'a'), source := "search" }

/-- The embeddings item of the spec scenario: 50 characters of text. -/
def embItem50 : ContextItem :=
  { uri := "file:///b", text := String.mk (List.replicate 50 'b'), source := "embeddings" }

/-- An item with empty text. -/
def emptyItem : ContextItem :=
  { uri := "file:///e", text := "", source := "search" }

/-- An active text selection, as reported by the editor
(`getActiveTextEditorSelection`). -/
structure Selection where
  selectedText : String
  fileUri : String
  selectionRange : Option (Nat × Nat × Nat × Nat) := none
  deriving DecidableEq, Repr

/-- The visible content of the active editor
(`getActiveTextEditorVisibleContent`). -/
structure VisibleContent where
  content : String
  fileUri : Option String
  deriving DecidableEq, Repr

/-- The editor-side environment of a query.  `readme` models the result of the
external README lookup performed by `getReadmeContext` (a `findFiles` glob over
the workspace plus `truncateTextNearestLine`, both outside this subsystem): the
URI and already-truncated text of the first matching README file, when one
exists. -/
structure EditorState where
  selection : Option Selection := Option.none
  visible : Option VisibleContent := Option.none
  workspaceRootUri : Option String := Option.none
  readme : Option (String × String) := Option.none
  deriving DecidableEq, Repr

/-- The whitespace class of the JS regular expression `\s` (the characters
relevant to this code base); also used to model `String.prototype.trim`. -/
def isSpaceChar (c : Char) : Bool :=
  c == ' ' || c == '\t' || c == '\n' || c == '\r' || c == '\x0b' || c == '\x0c'

/-- Drop leading whitespace characters. -/
def dropSpaces : List Char → List Char
  | [] => []
  | c :: rest => if isSpaceChar c then dropSpaces rest else c :: rest

/-- Model of `String.prototype.trim`: drop leading and trailing whitespace. -/
def trimStr (s : String) : String :=
  String.mk (((dropSpaces ((dropSpaces s.data.reverse))).reverse))

/-- Model of `String.prototype.toLowerCase` for the ASCII inputs of this
code. -/
def toLowerStr (s : String) : String :=
  String.mk (s.data.map Char.toLower)

/-- The characters after the last `/` (JS `split('/').at(-1)`, which is the
final, possibly empty, segment). -/
def lastSegGo : List Char → List Char → List Char
  | [], cur => cur.reverse
  | c :: rest, cur => if c == '/' then lastSegGo rest [] else lastSegGo rest (c :: cur)

/-- The last `/`-separated segment of a string. -/
def lastSlashSegment (s : String) : String :=
  String.mk (lastSegGo s.data [])

/-- `getCurrentSelectionContext`: one item covering the active selection, or
nothing when there is no selection or its text is empty (JS falsiness of the
empty string). -/
def getCurrentSelectionContext (editor : EditorState) : List ContextItem :=
  match editor.selection with
  | Option.none => []
  | Option.some s =>
    if s.selectedText = "" then []
    else [{ uri := s.fileUri, text := s.selectedText, source := "selection",
            range := s.selectionRange }]

/-- `getVisibleEditorContext`: the visible editor content as one item, or
nothing when there is no visible editor, no file URI, or only-whitespace
content. -/
def getVisibleEditorContext (editor : EditorState) : List ContextItem :=
  match editor.visible with
  | Option.none => []
  | Option.some v =>
    match v.fileUri with
    | Option.none => []
    | Option.some uri =>
      if trimStr v.content = "" then []
      else [{ uri := uri, text := v.content, source := "editor", range := Option.none }]

/-- After one or more whitespace characters, the word `w` starts. -/
def spacesThenWord (w : List Char) : List Char → Bool
  | [] => false
  | c :: rest => isSpaceChar c && (List.isPrefixOf w rest || spacesThenWord w rest)

/-- Does `p` hold at some suffix of the list? -/
def anySuffix (p : List Char → Bool) : List Char → Bool
  | [] => p []
  | c :: rest => p (c :: rest) || anySuffix p rest

/-- Model of a JS regex of the shape `(w₁|…|wₙ)\s+w` matched anywhere in the
input: at some position one of the alternatives occurs, followed by at least
one whitespace character and then `w`. -/
def matchAltSpaceWord (alts : List String) (w : String) (s : String) : Bool :=
  anySuffix
    (fun cs => alts.any
      (fun a => List.isPrefixOf a.data cs && spacesThenWord w.data (cs.drop a.data.length)))
    s.data

/-- Substring occurrence (a JS regex that is a plain word). -/
def containsWord (w : String) (s : String) : Bool :=
  anySuffix (fun cs => List.isPrefixOf w.data cs) s.data

/-- `needsUserAttentionContext`: the lowercased input matches one of the
`userAttentionRegexps` (`/editor/`, `/(open|current|this|entire)\s+file/`,
`/current(ly)?\s+open/`, `/have\s+open/`). -/
def needsUserAttentionContext (input : String) : Bool :=
  let l := toLowerStr input
  containsWord "editor" l ||
  matchAltSpaceWord ["open", "current", "this", "entire"] "file" l ||
  matchAltSpaceWord ["currently", "current"] "open" l ||
  matchAltSpaceWord ["have"] "open" l

/-- `extractQuestion`: trim the input; if it contains `?`, the prefix through
the first `?` (trimmed); otherwise the whole trimmed input when shorter than
100 characters; otherwise nothing. -/
def extractQuestion (input : String) : Option String :=
  let t := trimStr input
  match t.data.findIdx? (fun c => c == '?') with
  | Option.some q => Option.some (trimStr (String.mk (t.data.take (q + 1))))
  | Option.none => if t.length < 100 then Option.some t else Option.none

/-- The word class of the JS regular expression `\w`: ASCII letters, digits
and underscore. -/
def isWordChar (c : Char) : Bool :=
  c.isAlpha || c.isDigit || c == '_'

/-- Splitting on runs of non-word characters, dropping empty pieces
(`input.split(/\W+/).filter(w => w.length > 0)`). -/
def wordsGo : List Char → List Char → List String
  | [], cur => if cur.isEmpty then [] else [String.mk cur.reverse]
  | c :: rest, cur =>
    if isWordChar c then wordsGo rest (c :: cur)
    else if cur.isEmpty then wordsGo rest []
    else String.mk cur.reverse :: wordsGo rest []

/-- The words of a string, tokenized on non-word boundaries. -/
def wordsOf (s : String) : List String := wordsGo s.data []

/-- The fixed project-signifier words of `needsReadmeContext`. -/
def projectSignifierWords : List String :=
  ["project", "repository", "repo", "library", "package", "module", "codebase"]

/-- The question-indicator words of `needsReadmeContext` that can actually
occur in the bag of words (the literal `?` of the source list is also checked
there, but `?` is not a word character and never survives tokenization). -/
def questionIndicatorWords : List String :=
  ["what", "how", "describe", "explain"]

/-- The last `/`-separated segment of the workspace root URI string
(`workspaceUri.toString().split('/').at(-1)`), lowercased and added to the
project signifiers when non-empty. -/
def workspaceRootSignifier (editor : EditorState) : List String :=
  match editor.workspaceRootUri with
  | Option.none => []
  | Option.some u =>
    let b := lastSlashSegment u
    if b = "" then [] else [toLowerStr b]

/-- `needsReadmeContext`: the lowercased input yields a non-empty question via
`extractQuestion`, and its bag of words contains both a question indicator and
a project signifier.  The indicator `?` of the source's list can never match
because words are split on `\W+`. -/
def needsReadmeContext (editor : EditorState) (input : String) : Bool :=
  let l := toLowerStr input
  match extractQuestion l with
  | Option.none => false
  | Option.some q =>
    if q = "" then false
    else
      let words := wordsOf l
      ((projectSignifierWords ++ workspaceRootSignifier editor).any
          (fun p => words.contains p)) &&
        (questionIndicatorWords.any (fun qi => words.contains qi))

/-- The README-branch trigger exactly as claim C5 words it (a refinement
reference following the spec, to be compared with `needsReadmeContext`): the
question indicator (one of the four words, or a literal `?`) is looked for in
the clause extracted by `extractQuestion`, and the project signifier among the
words of the whole query. -/
def needsReadmeContextSpec (editor : EditorState) (input : String) : Bool :=
  let l := toLowerStr input
  match extractQuestion l with
  | Option.none => false
  | Option.some q =>
    let qWords := wordsOf q
    let hasIndicator :=
      (questionIndicatorWords.any (fun qi => qWords.contains qi)) ||
        q.data.contains '?'
    let words := wordsOf l
    hasIndicator &&
      ((projectSignifierWords ++ workspaceRootSignifier editor).any
        (fun p => words.contains p))

/-- The editor environment of the README scenario: workspace folder `myrepo`,
a README present, no selection and no visible editor. -/
def readmeEnv : EditorState :=
  { workspaceRootUri := Option.some "file:///home/user/myrepo",
    readme := Option.some ("file:///home/user/myrepo/README.md", "This is myrepo.") }

/-- Modelled from the spec: `uriBasename` (a shared URI helper whose source is
not included here) — the final path segment of a URI. -/
def uriBasename (uri : String) : String :=
  lastSlashSegment uri

/-- Does the retrieved context already contain a README file (basename
case-insensitively `readme` or starting with `readme.`)? -/
def containsREADME (retrievedContext : List ContextItem) : Bool :=
  retrievedContext.any (fun it =>
    let b := toLowerStr (uriBasename it.uri)
    b == "readme" || List.isPrefixOf "readme.".data b.data)

/-- `getReadmeContext`: the README item supplied by the environment, dropped
when the truncated text is empty; no item when no README exists. -/
def getReadmeContext (editor : EditorState) : List ContextItem :=
  match editor.readme with
  | Option.none => []
  | Option.some r =>
    if r.2.length = 0 then []
    else [{ uri := r.1, text := r.2, source := "editor", range := Option.none }]

/-- `getPriorityContext`: selection first; else visible editor content when
the query mentions the editor; else the README when the query asks about the
project and no README was already retrieved; else nothing. -/
def getPriorityContext (text : String) (editor : EditorState)
    (retrievedContext : List ContextItem) : List ContextItem :=
  let selectionContext := getCurrentSelectionContext editor
  if selectionContext.length > 0 then selectionContext
  else if needsUserAttentionContext text then getVisibleEditorContext editor
  else if needsReadmeContext editor text then
    if containsREADME retrievedContext then [] else getReadmeContext editor
  else []

/-- The `ConfigurationUseContext` strategy flag. -/
inductive Strategy where
  | none
  | embeddings
  | keyword
  | blended
  deriving DecidableEq, Repr

/-- `retrieveContextGracefully`: a rejected provider promise is caught and
becomes the empty result list. -/
def retrieveContextGracefully (r : Except String (List ContextItem)) :
    List ContextItem :=
  match r with
  | Except.ok items => items
  | Except.error _ => []

/-- `getEnhancedContextFused`: with strategy `none`, just the visible editor
content; otherwise fuse the gracefully-retrieved embeddings results with the
gracefully-retrieved keyword results (local symf search then remote search,
each gated on provider presence and strategy) and prepend the priority
context.  Each provider's outcome (a resolved or rejected promise) is an
explicit `Except` input. -/
def getEnhancedContextFused (strategy : Strategy) (editor : EditorState)
    (text : String) (hasSymf hasRemoteSearch : Bool)
    (embOutcome symfOutcome remoteOutcome : Except String (List ContextItem))
    (maxChars : Nat) : List ContextItem :=
  if strategy = Strategy.none then getVisibleEditorContext editor
  else
    let embeddingsContextItems :=
      if strategy ≠ Strategy.keyword then retrieveContextGracefully embOutcome
      else []
    let localSearchContextItems :=
      if hasSymf = true ∧ strategy ≠ Strategy.embeddings then
        retrieveContextGracefully symfOutcome
      else []
    let remoteSearchContextItems :=
      if hasRemoteSearch = true ∧ strategy ≠ Strategy.embeddings then
        retrieveContextGracefully remoteOutcome
      else []
    let keywordContextItems := localSearchContextItems ++ remoteSearchContextItems
    let fusedContext := fuseContext keywordContextItems embeddingsContextItems maxChars
    getPriorityContext text editor fusedContext ++ fusedContext

/-- Replace a provider failure by a successful empty result. -/
def scrubOutcome (r : Except String (List ContextItem)) :
    Except String (List ContextItem) :=
  match r with
  | Except.ok items => Except.ok items
  | Except.error _ => Except.ok []

/-- A parsed URI: scheme and absolute path (authority empty, as for the
`file://` URIs of the claims). -/
structure Uri where
  scheme : String
  path : String
  deriving DecidableEq, Repr

/-- `URI.toString()` for an empty-authority URI. -/
def uriToString (u : Uri) : String :=
  u.scheme ++ "://" ++ u.path

/-- Consume the scheme of a URI string (characters before the first `:`),
then the `//` and return the rest as the path.  Inverse of `uriToString` on
the strings this development stores as map keys. -/
def parseUriChars : List Char → List Char → Uri
  | [], acc => { scheme := String.mk acc.reverse, path := "" }
  | c :: rest, acc =>
    if c == ':' then
      { scheme := String.mk acc.reverse,
        path := String.mk (rest.drop 2) }
    else parseUriChars rest (c :: acc)

/-- `URI.parse` on the `scheme://path` strings used as workspace-root keys. -/
def parseUri (s : String) : Uri :=
  parseUriChars s.data []

/-- Split a character list on a separator, keeping empty pieces
(JS `String.prototype.split` with a single-character separator). -/
def splitCharGo (sep : Char) : List Char → List Char → List String
  | [], cur => [String.mk cur.reverse]
  | c :: rest, cur =>
    if c == sep then String.mk cur.reverse :: splitCharGo sep rest []
    else splitCharGo sep rest (c :: cur)

/-- JS `s.split(sep)` for a one-character separator. -/
def splitChar (sep : Char) (s : String) : List String :=
  splitCharGo sep s.data []

/-- The non-empty `/`-separated segments of a POSIX path. -/
def pathSegs (p : String) : List String :=
  (splitChar '/' p).filter (fun s => s ≠ "")

/-- Join path segments with `/`. -/
def joinSegs : List String → String
  | [] => ""
  | [x] => x
  | x :: y :: rest => x ++ "/" ++ joinSegs (y :: rest)

/-- Drop the common leading segments of two segment lists. -/
def dropCommonSegs : List String → List String → List String × List String
  | a :: as, b :: bs => if a = b then dropCommonSegs as bs else (a :: as, b :: bs)
  | as, bs => (as, bs)

/-- Modelled from the spec: `posixAndURIPaths.relative` (a shared path helper
whose source is not included here) — the POSIX relative path from one
absolute path to another: drop the common prefix, go up with `..` for the
remaining source segments, then down the remaining target segments. -/
def posixRelative (f t : String) : String :=
  let r := dropCommonSegs (pathSegs f) (pathSegs t)
  joinSegs (List.replicate r.1.length ".." ++ r.2)

/-- The parent path of an absolute POSIX path (one `..` step of
`Utils.joinPath`). -/
def parentPath (p : String) : String :=
  "/" ++ joinSegs (pathSegs p).dropLast

/-- `ignoreFileEffectiveDirectory`: the directory a `.cody/ignore` file
applies to — two path segments above the ignore file
(`Utils.joinPath(ignoreFile, '..', '..')`). -/
def ignoreFileEffectiveDirectory (ignoreFile : Uri) : Uri :=
  { scheme := ignoreFile.scheme, path := parentPath (parentPath ignoreFile.path) }

/-- A compiled ignore rule of the external `ignore` npm package (gitignore
semantics), for the wildcard-free patterns this repository's rules use:
an optional `!` negation, an optional trailing `/` (directory-only), and the
rule's `/`-separated segments; a rule whose body contains a `/` is anchored
to the rule-set root, otherwise it matches a basename at any level. -/
structure IgnoreRule where
  negated : Bool
  dirOnly : Bool
  anchored : Bool
  segs : List String
  deriving DecidableEq, Repr

/-- Parse a gitignore pattern (wildcard-free) into an `IgnoreRule`. -/
def parseRule (s : String) : IgnoreRule :=
  let (negated, body) :=
    match s.data with
    | '!' :: rest => (true, rest)
    | cs => (false, cs)
  let (dirOnly, core) :=
    match body.reverse with
    | '/' :: revRest => (true, revRest.reverse)
    | _ => (false, body)
  { negated := negated
    dirOnly := dirOnly
    anchored := core.contains '/'
    segs := pathSegs (String.mk core) }

/-- Does the rule match the entity with the given path segments (a file or
directory named by a path prefix of the queried path)? -/
def ruleMatchesEntity (r : IgnoreRule) (entity : List String) : Bool :=
  if r.anchored then r.segs == entity
  else
    match entity.getLast? with
    | Option.some b => r.segs == [b]
    | Option.none => false

/-- All non-empty proper-or-full prefixes of a list. -/
def nonemptyPrefixes : List String → List (List String)
  | [] => []
  | x :: rest => [x] :: (nonemptyPrefixes rest).map (fun p => x :: p)

/-- Gitignore matching of one rule against a relative path: the rule matches
the path itself or one of its ancestor directories (a matched directory
ignores everything below it); a directory-only rule matches only the proper
ancestors of the queried path. -/
def ruleMatchesPath (r : IgnoreRule) (segs : List String) : Bool :=
  (nonemptyPrefixes segs).any (fun p =>
    (p.length < segs.length || !r.dirOnly) && ruleMatchesEntity r p)

/-- Model of `Ignore.ignores` of the external `ignore` npm package for
wildcard-free rules: the last matching rule decides; no match means not
ignored. -/
def ignoresPath (rules : List IgnoreRule) (relPath : String) : Bool :=
  let segs := pathSegs relPath
  match rules.foldl
      (fun acc r => if ruleMatchesPath r segs then Option.some r.negated else acc)
      Option.none with
  | Option.some negated => !negated
  | Option.none => false

/-- An insertion-ordered string-keyed map (a JS `Map` or object): update in
place if present, else append. -/
def objSet {α : Type} : List (String × α) → String → α → List (String × α)
  | [], k, v => [(k, v)]
  | (k', v') :: rest, k, v =>
    if k' = k then (k', v) :: rest else (k', v') :: objSet rest k v

/-- Lookup in an insertion-ordered string-keyed map. -/
def objGet {α : Type} : List (String × α) → String → Option α
  | [], _ => Option.none
  | (k', v') :: rest, k => if k' = k then Option.some v' else objGet rest k

/-- Delete from an insertion-ordered string-keyed map. -/
def objDelete {α : Type} : List (String × α) → String → List (String × α)
  | [], _ => []
  | (k', v') :: rest, k =>
    if k' = k then rest else (k', v') :: objDelete rest k

/-- The `IgnoreHelper` state: per-workspace-root compiled rules (keyed by the
root URI's string form, insertion-ordered) and the active flag. -/
structure IgnoreHelper where
  workspaceIgnores : List (String × List IgnoreRule)
  isActive : Bool
  deriving DecidableEq, Repr

/-- The default rule set (`ignore().add('.env')`). -/
def getDefaultIgnores : List IgnoreRule :=
  [parseRule ".env"]

/-- The rules contributed by one ignore file: each non-blank, non-comment
line, its `!` stripped and re-applied around the effective-directory
prefixing. -/
def ignoreFileRules (workspaceRoot : Uri) (ignoreFileUri : Uri)
    (content : String) : List IgnoreRule :=
  let effectiveDir := ignoreFileEffectiveDirectory ignoreFileUri
  let relativeFolderUriPath := posixRelative workspaceRoot.path effectiveDir.path
  (splitChar '\n' content).filterMap (fun rawLine =>
    let line := trimStr rawLine
    if line = "" then Option.none
    else if List.isPrefixOf "#".data line.data then Option.none
    else
      let (isInverted, body) :=
        match line.data with
        | '!' :: rest => (true, String.mk rest)
        | _ => (false, line)
      let ignoreRule :=
        if relativeFolderUriPath.length > 0 then
          relativeFolderUriPath ++ "/" ++ body
        else body
      Option.some (parseRule ((if isInverted then "!" else "") ++ ignoreRule)))

/-- `IgnoreHelper.setIgnoreFiles`: compile the default rules plus every
ignore file's prefixed rules into the root's entry.  The `ensureAbsolute` /
`ensureValidCodyIgnoreFile` contract throws of the source are programmer-error
guards; this model is used on valid inputs where they do not fire. -/
def setIgnoreFiles (helper : IgnoreHelper) (workspaceRoot : Uri)
    (ignoreFiles : List (Uri × String)) : IgnoreHelper :=
  let rules := getDefaultIgnores ++
    (ignoreFiles.map (fun f => ignoreFileRules workspaceRoot f.1 f.2)).flatten
  { helper with
    workspaceIgnores := objSet helper.workspaceIgnores (uriToString workspaceRoot) rules }

/-- Modelled from the spec: `uriHasPrefix` (an editor display-path helper
whose source is not included here) — is the workspace root a path-prefix of
the URI (same scheme, equal path or a `/`-separated path extension)? -/
def uriWithinRoot (uri root : Uri) : Bool :=
  uri.scheme == root.scheme &&
    (uri.path == root.path ||
      List.isPrefixOf (root.path ++ "/").data uri.path.data)

/-- Insert into a length-sorted list after all elements of smaller or equal
length (the stable position, as JS `Array.prototype.sort` keeps ties in
original order). -/
def insertByLen (x : String) : List String → List String
  | [] => [x]
  | y :: rest =>
    if y.length ≤ x.length then y :: insertByLen x rest else x :: y :: rest

/-- Stable sort by string length, ascending. -/
def sortByLen (l : List String) : List String :=
  l.foldl (fun acc x => insertByLen x acc) []

/-- `IgnoreHelper.findWorkspaceRoot`: the shortest registered root that is a
prefix of the file's URI. -/
def findWorkspaceRoot (helper : IgnoreHelper) (file : Uri) : Option Uri :=
  let candidates :=
    (helper.workspaceIgnores.map Prod.fst).filter
      (fun root => uriWithinRoot file (parseUri root))
  let sorted := sortByLen candidates
  (sorted.head?).map parseUri

/-- `IgnoreHelper.isIgnored`: inactive or non-file URIs are never ignored;
outside every workspace root only the default rules apply to the bare
filename; inside a root the root's compiled rules apply to the relative
path. -/
def isIgnored (helper : IgnoreHelper) (uri : Uri) : Bool :=
  if !helper.isActive then false
  else if uri.scheme ≠ "file" then false
  else
    match findWorkspaceRoot helper uri with
    | Option.none => ignoresPath getDefaultIgnores (lastSlashSegment uri.path)
    | Option.some workspaceRoot =>
      let relativePath := posixRelative workspaceRoot.path uri.path
      let rules :=
        (objGet helper.workspaceIgnores (uriToString workspaceRoot)).getD
          getDefaultIgnores
      ignoresPath rules relativePath

/-- The workspace root of the ignore scenario. -/
def ignoreRootW : Uri := { scheme := "file", path := "/w" }

/-- The ignore file of the scenario, at `file:///w/.cody/ignore`. -/
def ignoreFileW : Uri := { scheme := "file", path := "/w/.cody/ignore" }

/-- The helper state of the scenario: active, one workspace root with one
ignore file whose content is `build/`. -/
def ignoreHelperW : IgnoreHelper :=
  setIgnoreFiles { workspaceIgnores := [], isActive := true } ignoreRootW
    [(ignoreFileW, "build/")]

/-- An insertion-ordered flag-name → value object, one endpoint's cache
entry. -/
abbrev FlagMap := List (String × Bool)

/-- One subscription record of `FeatureFlagProvider.subscriptions`: the last
notified snapshot and the set of callbacks (modelled by their registration
ids, in insertion order as a JS `Set`). -/
structure FFSubscription where
  lastSnapshot : Option FlagMap
  callbacks : List Nat
  deriving DecidableEq, Repr

/-- The `FeatureFlagProvider` state: the per-endpoint flag cache, the
subscription map (insertion-ordered, with whatever keys the code stores), and
whether a refresh timer (`nextRefreshTimeout`) is pending.  The wall-clock
staleness bookkeeping (`lastUpdated`) only triggers extra background
refreshes and is not modelled. -/
structure FeatureFlagProvider where
  featureFlags : List (String × FlagMap)
  subscriptions : List (String × FFSubscription)
  nextRefreshTimeout : Bool
  deriving DecidableEq, Repr

/-- The provider's initial state. -/
def ffInitial : FeatureFlagProvider :=
  { featureFlags := [], subscriptions := [], nextRefreshTimeout := false }

/-- `computeFeatureFlagSnapshot`: the canonical serialization
(`JSON.stringify`, in insertion order) of all cached flags of the endpoint
whose name starts with the prefix filter.  `Option.none` models the empty
string returned for an unknown endpoint, distinct from the `"{}"` of an
endpoint with no matching flags. -/
def computeFeatureFlagSnapshot (st : FeatureFlagProvider)
    (endpoint prefixFilter : String) : Option FlagMap :=
  match objGet st.featureFlags endpoint with
  | Option.none => Option.none
  | Option.some flags =>
    Option.some (flags.filter
      (fun kv => List.isPrefixOf prefixFilter.data kv.1.data))

/-- The piece of a string before the first `#` (JS `key.split('#')[0]`). -/
def splitHashFirst (s : String) : String :=
  (splitChar '#' s).headD ""

/-- The piece of a string between the first and second `#`
(JS `key.split('#')[1]`, which is `undefined` when there is no `#`). -/
def splitHashSecond (s : String) : Option String :=
  (splitChar '#' s).get? 1

/-- `notifyFeatureFlagChanged`: for every subscription map entry, parse the
map key as `endpoint#prefix` (when the key has no `#`, `split('#')[1]` is
`undefined` and JS `startsWith(undefined)` coerces it to the string
`"undefined"`), recompute the snapshot and, when it differs from the recorded
one, record it and fire the callbacks.  Returns the new state and the fired
callback ids in order. -/
def notifyFeatureFlagChanged (st : FeatureFlagProvider) :
    FeatureFlagProvider × List Nat :=
  let results := st.subscriptions.map (fun e =>
    let endpoint := splitHashFirst e.1
    let prefixFilter := (splitHashSecond e.1).getD "undefined"
    let currentSnapshot := computeFeatureFlagSnapshot st endpoint prefixFilter
    if currentSnapshot ≠ e.2.lastSnapshot then
      ((e.1, { e.2 with lastSnapshot := currentSnapshot }), e.2.callbacks)
    else ((e.1, e.2), ([] : List Nat)))
  ({ st with subscriptions := results.map Prod.fst },
    (results.map Prod.snd).flatten)

/-- `refreshFeatureFlags`: replace the endpoint's cache with the remote data
(or `{}` on error), notify, then clear any pending timer and re-arm it iff at
least one subscription map entry exists. -/
def refreshFeatureFlags (st : FeatureFlagProvider) (endpoint : String)
    (data : Except Unit FlagMap) : FeatureFlagProvider × List Nat :=
  let flags := match data with
    | Except.ok d => d
    | Except.error _ => []
  let st1 := { st with featureFlags := objSet st.featureFlags endpoint flags }
  let r := notifyFeatureFlagChanged st1
  ({ r.1 with nextRefreshTimeout := !r.1.subscriptions.isEmpty }, r.2)

/-- A remote single-flag evaluation result: a boolean, `null` (flag unknown),
or an `Error` value returned by the GraphQL client. -/
inductive RemoteFlagValue where
  | val (b : Bool)
  | null
  | err
  deriving DecidableEq, Repr

/-- `evaluateFeatureFlag`: serve the cache when the flag is present;
otherwise store the remote result — with `null` and errors failing closed to
`false` — notify, and return the freshly cached value.  Returns the new
state, the returned boolean, and the callbacks fired by the notification. -/
def evaluateFeatureFlag (st : FeatureFlagProvider) (endpoint flagName : String)
    (remote : RemoteFlagValue) : FeatureFlagProvider × Bool × List Nat :=
  match objGet st.featureFlags endpoint with
  | Option.some epFlags =>
    match objGet epFlags flagName with
    | Option.some cachedValue => (st, cachedValue, [])
    | Option.none => evaluateFeatureFlagMiss st endpoint flagName remote epFlags
  | Option.none => evaluateFeatureFlagMiss st endpoint flagName remote []
where
  /-- The cache-miss path: store and return
  `value === null || isError(value) ? false : value`. -/
  evaluateFeatureFlagMiss (st : FeatureFlagProvider)
      (endpoint flagName : String) (remote : RemoteFlagValue)
      (epFlags : FlagMap) : FeatureFlagProvider × Bool × List Nat :=
    let stored := match remote with
      | RemoteFlagValue.val b => b
      | RemoteFlagValue.null => false
      | RemoteFlagValue.err => false
    let newFlags := objSet epFlags flagName stored
    let st1 := { st with featureFlags := objSet st.featureFlags endpoint newFlags }
    let r := notifyFeatureFlagChanged st1
    (r.1, (objGet newFlags flagName).getD false, r.2)

/-- `getFromCache`: `this.featureFlags[endpoint]?.[flagName]` (the staleness
check only schedules a background refresh and does not change the returned
value). -/
def getFromCache (st : FeatureFlagProvider) (endpoint flagName : String) :
    Option Bool :=
  match objGet st.featureFlags endpoint with
  | Option.none => Option.none
  | Option.some epFlags => objGet epFlags flagName

/-- Add to a JS `Set` (no duplicates, insertion order). -/
def setAdd (l : List Nat) (x : Nat) : List Nat :=
  if l.contains x then l else l ++ [x]

/-- `onFeatureFlagChanged`: compute `key = endpoint + '#' + prefixFilter`;
when an entry for `key` exists, add the callback to it; otherwise create a
fresh entry — which the source stores under `prefixFilter`, not under `key` —
and arm the refresh timer if it is not already pending.  Returns the new state
and whether the fresh-subscription branch was taken (whose unsubscribe
closure is `unsubscribeFresh`; the existing-subscription branch's closure is
`unsubscribeExisting`). -/
def onFeatureFlagChanged (st : FeatureFlagProvider)
    (endpoint prefixFilter : String) (callback : Nat) :
    FeatureFlagProvider × Bool :=
  let key := endpoint ++ "#" ++ prefixFilter
  match objGet st.subscriptions key with
  | Option.some subscription =>
    let updated := { subscription with
      callbacks := setAdd subscription.callbacks callback }
    ({ st with subscriptions := objSet st.subscriptions key updated }, false)
  | Option.none =>
    let fresh : FFSubscription :=
      { lastSnapshot := computeFeatureFlagSnapshot st endpoint prefixFilter
        callbacks := [callback] }
    let armed := st.nextRefreshTimeout
    ({ st with
        subscriptions := objSet st.subscriptions prefixFilter fresh
        nextRefreshTimeout := if armed then armed else true },
      true)

/-- The unsubscribe closure returned by the existing-subscription branch of
`onFeatureFlagChanged`: it only deletes the callback from the subscription
object it captured (modelled by its key; entries are never replaced, so the
alias stays valid while the entry exists). -/
def unsubscribeExisting (st : FeatureFlagProvider) (key : String)
    (callback : Nat) : FeatureFlagProvider :=
  match objGet st.subscriptions key with
  | Option.none => st
  | Option.some sub =>
    let updated := { sub with callbacks := sub.callbacks.erase callback }
    { st with subscriptions := objSet st.subscriptions key updated }

/-- The unsubscribe closure returned by the fresh-subscription branch of
`onFeatureFlagChanged`: look up the captured `key` (`endpoint#prefixFilter`),
delete the callback, drop the entry when its callback set empties, and clear
the timer when the subscription map empties. -/
def unsubscribeFresh (st : FeatureFlagProvider) (key : String)
    (callback : Nat) : FeatureFlagProvider :=
  match objGet st.subscriptions key with
  | Option.none => st
  | Option.some sub =>
    let cbs := sub.callbacks.erase callback
    let subs1 :=
      if cbs.isEmpty then objDelete st.subscriptions key
      else objSet st.subscriptions key ({ sub with callbacks := cbs })
    let timer :=
      if subs1.isEmpty && st.nextRefreshTimeout then false
      else st.nextRefreshTimeout
    { st with subscriptions := subs1, nextRefreshTimeout := timer }

/-- The editor environment of the selection scenario: an active non-empty
selection. -/
def selectionEnv : EditorState :=
  { selection := Option.some
      { selectedText := "let x = 1", fileUri := "file:///sel.ts" } }

theorem greedyFuse_nil (cap5 c : Nat) : greedyFuse [] cap5 c = ([], c) := rfl

theorem greedyFuse_cons (it : ContextItem) (rest : List ContextItem)
    (cap5 c : Nat) :
    greedyFuse (it :: rest) cap5 c =
      if 5 * (c + it.text.length) ≤ cap5 then
        ((it :: (greedyFuse rest cap5 (c + it.text.length)).1),
          (greedyFuse rest cap5 (c + it.text.length)).2)
      else greedyFuse rest cap5 c := by
  by_cases h : 5 * (c + it.text.length) ≤ cap5 <;>
    simp [greedyFuse, h]

/-- The final running count equals the initial count plus the characters of
the included items. -/
theorem greedyFuse_snd (items : List ContextItem) (cap5 c : Nat) :
    (greedyFuse items cap5 c).2 = c + totalChars (greedyFuse items cap5 c).1 := by
  induction items generalizing c with
  | nil => simp [greedyFuse, totalChars]
  | cons it rest ih =>
    by_cases h : 5 * (c + it.text.length) ≤ cap5
    · simp only [greedyFuse, h, if_pos]
      rw [ih]
      simp [totalChars]
      ring
    · simp only [greedyFuse, h, if_neg, not_false_iff]
      exact ih c

/-- The final running count never exceeds `max` of the initial count and the
cap. -/
theorem greedyFuse_le_cap (items : List ContextItem) (cap5 c : Nat) :
    5 * (greedyFuse items cap5 c).2 ≤ max (5 * c) cap5 := by
  induction items generalizing c with
  | nil => simp [greedyFuse]
  | cons it rest ih =>
    by_cases h : 5 * (c + it.text.length) ≤ cap5
    · simp only [greedyFuse, h, if_pos]
      exact le_trans (ih (c + it.text.length)) (by
        have : 5 * (c + it.text.length) ≤ cap5 := h
        omega)
    · simp only [greedyFuse, h, if_neg, not_false_iff]
      exact ih c

/-- The included items form a sublist of the input: items are kept whole and
in order, skipped items are simply omitted. -/
theorem greedyFuse_sublist (items : List ContextItem) (cap5 c : Nat) :
    (greedyFuse items cap5 c).1.Sublist items := by
  induction items generalizing c with
  | nil => simp [greedyFuse]
  | cons it rest ih =>
    by_cases h : 5 * (c + it.text.length) ≤ cap5
    · simp only [greedyFuse, h, if_pos]
      exact (ih (c + it.text.length)).cons₂ it
    · simp only [greedyFuse, h, if_neg, not_false_iff]
      exact (ih c).cons it

theorem totalChars_append (a b : List ContextItem) :
    totalChars (a ++ b) = totalChars a + totalChars b := by
  simp [totalChars]

/-- The count of characters used by the whole fused list. -/
theorem fuseContext_totalChars (K E : List ContextItem) (m : Nat) :
    totalChars (fuseContext K E m) =
      (greedyFuse E (5 * m)
        (greedyFuse K (if E.length > 0 then 4 * m else 5 * m) 0).2).2 := by
  unfold fuseContext
  rw [totalChars_append]
  rw [greedyFuse_snd E, greedyFuse_snd K]
  omega

/-- An empty-text item present in the input survives a greedy pass whenever the
running count is within the cap (which the passes maintain). -/
theorem greedyFuse_empty_mem (items : List ContextItem) (cap5 c : Nat)
    (hc : 5 * c ≤ cap5) (it : ContextItem) (hmem : it ∈ items)
    (hlen : it.text.length = 0) : it ∈ (greedyFuse items cap5 c).1 := by
  induction items generalizing c with
  | nil => cases hmem
  | cons a rest ih =>
    by_cases h : 5 * (c + a.text.length) ≤ cap5
    · simp only [greedyFuse, h, if_pos]
      rcases List.mem_cons.mp hmem with h1 | h1
      · exact h1 ▸ List.mem_cons_self _ _
      · exact List.mem_cons_of_mem _ (ih (c + a.text.length) h h1)
    · simp only [greedyFuse, h, if_neg, not_false_iff]
      rcases List.mem_cons.mp hmem with h1 | h1
      · have ha : a.text.length = 0 := h1 ▸ hlen
        exact absurd (show 5 * (c + a.text.length) ≤ cap5 by omega) h
      · exact ih c hc h1

/-- With a zero cap, a greedy pass keeps exactly the zero-length items. -/
theorem greedyFuse_zero_cap (items : List ContextItem) :
    greedyFuse items 0 0 =
      (items.filter (fun it => it.text.length == 0), 0) := by
  induction items with
  | nil => simp [greedyFuse]
  | cons a rest ih =>
    by_cases h : a.text.length = 0
    · have hg : 5 * (0 + a.text.length) ≤ 0 := by omega
      have hb : (a.text.length == 0) = true := by simpa using h
      simp only [greedyFuse, hg, if_pos]
      rw [show 0 + a.text.length = 0 by omega, ih]
      simp [List.filter_cons, hb]
    · have hg : ¬ 5 * (0 + a.text.length) ≤ 0 := by omega
      have hb : (a.text.length == 0) = false := by simpa using h
      simp only [greedyFuse, hg, if_neg, not_false_iff]
      rw [ih]
      simp [List.filter_cons, hb]

/-- C1: for every budget `maxChars` and item lists `K`, `E`, the total
character count of `fuseContext K E maxChars` is at most `maxChars`; and when
`E` is non-empty the output decomposes as keyword part followed by embeddings
part, with the keyword part's total character count at most `0.8 * maxChars`
(stated exactly as `5 * chars ≤ 4 * maxChars`). -/
theorem fuseContext_respects_budget (K E : List ContextItem) (m : Nat) :
    totalChars (fuseContext K E m) ≤ m ∧
    (E ≠ [] →
      fuseContext K E m =
        (greedyFuse K (4 * m) 0).1 ++
          (greedyFuse E (5 * m) (greedyFuse K (4 * m) 0).2).1 ∧
      5 * totalChars (greedyFuse K (4 * m) 0).1 ≤ 4 * m) := by
  constructor
  · rw [fuseContext_totalChars]
    by_cases hE : E.length > 0
    · simp only [hE, if_true]
      have hkw := greedyFuse_le_cap K (4 * m) 0
      have hemb := greedyFuse_le_cap E (5 * m) (greedyFuse K (4 * m) 0).2
      omega
    · simp only [hE, if_false]
      have hkw := greedyFuse_le_cap K (5 * m) 0
      have hemb := greedyFuse_le_cap E (5 * m) (greedyFuse K (5 * m) 0).2
      omega
  · intro hE
    have hlen : E.length > 0 := List.length_pos.mpr hE
    constructor
    · unfold fuseContext
      simp [hlen]
    · have hkw := greedyFuse_le_cap K (4 * m) 0
      have hsnd := greedyFuse_snd K (4 * m) 0
      omega

/-- C1 witness: the budget bounds evaluated at the scenario inputs. -/
theorem fuseContext_respects_budget_witness :
    totalChars (fuseContext [kwItem90] [embItem50] 100) ≤ 100 ∧
    5 * totalChars (greedyFuse [kwItem90] (4 * 100) 0).1 ≤ 4 * 100 :=
  ⟨(fuseContext_respects_budget [kwItem90] [embItem50] 100).1,
   ((fuseContext_respects_budget [kwItem90] [embItem50] 100).2
     (by decide)).2⟩

/-- C2: fusion is greedy first-fit.  The output is a sublist of the inputs in
order (items are never truncated); an item is included exactly when the
running count plus its length fits the cap, and a skipped item does not stop
the iteration; and in the scenario with one 90-char keyword item, one 50-char
embeddings item, and budget 100, the keyword item is dropped and the
embeddings item is included. -/
theorem fuseContext_greedy_first_fit :
    (∀ (K E : List ContextItem) (m : Nat),
        (fuseContext K E m).Sublist (K ++ E)) ∧
    (∀ (it : ContextItem) (rest : List ContextItem) (cap5 c : Nat),
        5 * (c + it.text.length) ≤ cap5 →
        (greedyFuse (it :: rest) cap5 c).1 =
          it :: (greedyFuse rest cap5 (c + it.text.length)).1) ∧
    (∀ (it : ContextItem) (rest : List ContextItem) (cap5 c : Nat),
        ¬ 5 * (c + it.text.length) ≤ cap5 →
        greedyFuse (it :: rest) cap5 c = greedyFuse rest cap5 c) ∧
    fuseContext [kwItem90] [embItem50] 100 = [embItem50] := by
  refine ⟨?_, ?_, ?_, ?_⟩
  · intro K E m
    unfold fuseContext
    exact (greedyFuse_sublist _ _ _).append (greedyFuse_sublist _ _ _)
  · intro it rest cap5 c h
    simp [greedyFuse, h]
  · intro it rest cap5 c h
    simp [greedyFuse, h]
  · decide

/-- C2 witness: the conditional inclusion equations at concrete inputs
(the 50-char item fits a 100-char cap; the 90-char item misses an 80-char
cap). -/
theorem fuseContext_greedy_first_fit_witness :
    (greedyFuse [embItem50] 500 0).1 =
      embItem50 :: (greedyFuse [] 500 (0 + embItem50.text.length)).1 ∧
    greedyFuse [kwItem90] 400 0 = greedyFuse [] 400 0 :=
  ⟨fuseContext_greedy_first_fit.2.1 embItem50 [] 500 0 (by decide),
   fuseContext_greedy_first_fit.2.2.1 kwItem90 [] 400 0 (by decide)⟩

/-- C10: an item with empty text that occurs in the keyword or embeddings
input is always included in the output, for every budget including 0; and with
budget 0 the output is exactly the zero-length items of `K` followed by the
zero-length items of `E`, in input order. -/
theorem fuseContext_keeps_empty_items :
    (∀ (K E : List ContextItem) (m : Nat) (it : ContextItem),
        it.text = "" → it ∈ K ++ E → it ∈ fuseContext K E m) ∧
    (∀ K E : List ContextItem,
        fuseContext K E 0 =
          K.filter (fun it => it.text.length == 0) ++
            E.filter (fun it => it.text.length == 0)) := by
  constructor
  · intro K E m it htext hmem
    have hlen : it.text.length = 0 := by rw [htext]; rfl
    simp only [fuseContext]
    rcases List.mem_append.mp hmem with h1 | h1
    · exact List.mem_append.mpr
        (Or.inl (greedyFuse_empty_mem K _ 0 (by omega) it h1 hlen))
    · refine List.mem_append.mpr (Or.inr ?_)
      by_cases hE : E.length > 0
      · simp only [hE, if_true]
        refine greedyFuse_empty_mem E (5 * m) _ ?_ it h1 hlen
        have hkw := greedyFuse_le_cap K (4 * m) 0
        omega
      · simp only [hE, if_false]
        refine greedyFuse_empty_mem E (5 * m) _ ?_ it h1 hlen
        have hkw := greedyFuse_le_cap K (5 * m) 0
        omega
  · intro K E
    simp [fuseContext, greedyFuse_zero_cap]

/-- C10 witness: an empty item in the embeddings list survives budget 0. -/
theorem fuseContext_keeps_empty_items_witness :
    emptyItem ∈ fuseContext [kwItem90] [emptyItem] 0 :=
  fuseContext_keeps_empty_items.1 [kwItem90] [emptyItem] 0 emptyItem rfl
    (by decide)

/-- C3: in the fused path (strategy not `none`), a provider failure is caught
and treated as an empty result list for that provider only: the result equals
the result with every failed provider outcome replaced by a successful empty
one, so the fused context is the fusion of the providers that succeeded, and
no failure propagates (the function is total). -/
theorem fusedPath_provider_failures_isolated
    (strategy : Strategy) (editor : EditorState) (text : String)
    (hasSymf hasRemoteSearch : Bool)
    (embOutcome symfOutcome remoteOutcome : Except String (List ContextItem))
    (maxChars : Nat) (h : strategy ≠ Strategy.none) :
    (∀ e : String, retrieveContextGracefully (Except.error e) = []) ∧
    getEnhancedContextFused strategy editor text hasSymf hasRemoteSearch
        embOutcome symfOutcome remoteOutcome maxChars =
      getEnhancedContextFused strategy editor text hasSymf hasRemoteSearch
        (scrubOutcome embOutcome) (scrubOutcome symfOutcome)
        (scrubOutcome remoteOutcome) maxChars := by
  constructor
  · intro e
    rfl
  · have hg : ∀ r, retrieveContextGracefully (scrubOutcome r) =
        retrieveContextGracefully r := by
      intro r
      cases r <;> rfl
    simp only [getEnhancedContextFused, hg]

/-- C3 witness: two failing providers and one succeeding one, strategy
`blended`. -/
theorem fusedPath_provider_failures_isolated_witness :
    (∀ e : String, retrieveContextGracefully (Except.error e) = []) ∧
    getEnhancedContextFused Strategy.blended readmeEnv "q" true true
        (Except.error "embeddings down") (Except.ok [kwItem90])
        (Except.error "network error") 100 =
      getEnhancedContextFused Strategy.blended readmeEnv "q" true true
        (scrubOutcome (Except.error "embeddings down"))
        (scrubOutcome (Except.ok [kwItem90]))
        (scrubOutcome (Except.error "network error")) 100 :=
  fusedPath_provider_failures_isolated Strategy.blended readmeEnv "q" true true
    (Except.error "embeddings down") (Except.ok [kwItem90])
    (Except.error "network error") 100 (by decide)

/-- C4: with an active non-empty selection the priority context is exactly
one item covering that selection, regardless of the query text; and the three
priority branches are mutually exclusive — selection first, else the
user-attention editor content, else the README branch, else nothing. -/
theorem priorityContext_precedence (text : String) (editor : EditorState)
    (retrieved : List ContextItem) :
    (∀ s : Selection, editor.selection = Option.some s → s.selectedText ≠ "" →
      getPriorityContext text editor retrieved =
        [{ uri := s.fileUri, text := s.selectedText, source := "selection",
           range := s.selectionRange }]) ∧
    (getCurrentSelectionContext editor ≠ [] →
      getPriorityContext text editor retrieved =
        getCurrentSelectionContext editor) ∧
    (getCurrentSelectionContext editor = [] →
      needsUserAttentionContext text = true →
      getPriorityContext text editor retrieved =
        getVisibleEditorContext editor) ∧
    (getCurrentSelectionContext editor = [] →
      needsUserAttentionContext text = false →
      needsReadmeContext editor text = true →
      getPriorityContext text editor retrieved =
        if containsREADME retrieved then [] else getReadmeContext editor) ∧
    (getCurrentSelectionContext editor = [] →
      needsUserAttentionContext text = false →
      needsReadmeContext editor text = false →
      getPriorityContext text editor retrieved = []) := by
  refine ⟨?_, ?_, ?_, ?_, ?_⟩
  · intro s hs hne
    have hsel : getCurrentSelectionContext editor =
        [{ uri := s.fileUri, text := s.selectedText, source := "selection",
           range := s.selectionRange }] := by
      simp [getCurrentSelectionContext, hs, hne]
    simp [getPriorityContext, hsel]
  · intro hne
    have hpos : (getCurrentSelectionContext editor).length > 0 :=
      List.length_pos.mpr hne
    simp [getPriorityContext, hpos]
  · intro h1 h2
    simp [getPriorityContext, h1, h2]
  · intro h1 h2 h3
    simp [getPriorityContext, h1, h2, h3]
  · intro h1 h2 h3
    simp [getPriorityContext, h1, h2, h3]

/-- C4 witness: a non-empty selection wins even over a query that matches the
user-attention patterns. -/
theorem priorityContext_precedence_witness :
    getPriorityContext "explain this file" selectionEnv [] =
      [{ uri := "file:///sel.ts", text := "let x = 1", source := "selection",
         range := Option.none }] :=
  (priorityContext_precedence "explain this file" selectionEnv []).1
    { selectedText := "let x = 1", fileUri := "file:///sel.ts" } rfl (by decide)

/-- C5 counterexample: for the query `tell me about this project?` the claimed
trigger holds (the clause ends in a literal `?` and `project` is a signifier)
but the code does not fire the README branch, because `?` is split away by the
`\W+` tokenization and so never matches an indicator, and no indicator word
occurs. -/
theorem needsReadme_claim_counterexample :
    needsReadmeContextSpec readmeEnv "tell me about this project?" = true ∧
    needsReadmeContext readmeEnv "tell me about this project?" = false ∧
    getPriorityContext "tell me about this project?" readmeEnv [] = [] :=
  ⟨by decide, by decide, by decide⟩

/-- C5 amended: the README branch fires iff `extractQuestion` of the
lowercased query yields a non-empty clause (the query contains `?`, or its
trimmed form is non-empty and under 100 characters) and the words of the whole
query — tokenized on non-word boundaries — contain one of
`what`/`how`/`describe`/`explain` and contain a project signifier (the fixed
words or the workspace root's folder name, lowercased); a literal `?` never
counts as an indicator token.  The scenario query `what is this project?` with
no README among the retrieved items fetches and returns the README. -/
theorem needsReadme_amended (editor : EditorState) (input : String) :
    (needsReadmeContext editor input = true ↔
      (∃ q, extractQuestion (toLowerStr input) = Option.some q ∧ q ≠ "") ∧
      questionIndicatorWords.any
        (fun qi => (wordsOf (toLowerStr input)).contains qi) = true ∧
      (projectSignifierWords ++ workspaceRootSignifier editor).any
        (fun p => (wordsOf (toLowerStr input)).contains p) = true) ∧
    getPriorityContext "what is this project?" readmeEnv [] =
      [{ uri := "file:///home/user/myrepo/README.md", text := "This is myrepo.",
         source := "editor", range := Option.none }] := by
  constructor
  · constructor
    · intro h
      simp only [needsReadmeContext] at h
      cases hq : extractQuestion (toLowerStr input) with
      | none => rw [hq] at h; simp at h
      | some q =>
        rw [hq] at h
        simp only at h
        by_cases h0 : q = ""
        · rw [if_pos h0] at h
          simp at h
        · rw [if_neg h0, Bool.and_eq_true] at h
          exact ⟨⟨q, rfl, h0⟩, h.2, h.1⟩
    · rintro ⟨⟨q, hq, h0⟩, hind, hsig⟩
      simp only [needsReadmeContext]
      rw [hq]
      simp only
      rw [if_neg h0, Bool.and_eq_true]
      exact ⟨hsig, hind⟩
  · decide

/-- C5 amended witness: the scenario query satisfies the amended trigger. -/
theorem needsReadme_amended_witness :
    needsReadmeContext readmeEnv "what is this project?" = true :=
  (needsReadme_amended readmeEnv "what is this project?").1.mpr
    ⟨⟨"what is this project?", by decide, by decide⟩, by decide, by decide⟩

/-- C6: with the ignore feature active, workspace root `file:///w` registered
with the single ignore file `file:///w/.cody/ignore` containing `build/`:
`/w/build/out.js` is ignored, `/w/src/out.js` is not, and the effective
directory of the ignore file is `file:///w` (two path segments above it). -/
theorem ignoreHelper_scenario :
    ignoreFileEffectiveDirectory ignoreFileW = ignoreRootW ∧
    isIgnored ignoreHelperW { scheme := "file", path := "/w/build/out.js" } = true ∧
    isIgnored ignoreHelperW { scheme := "file", path := "/w/src/out.js" } = false :=
  ⟨by decide, by decide, by decide⟩

/-- Lookup after update in an insertion-ordered map. -/
theorem objGet_objSet_self {α : Type} (m : List (String × α)) (k : String)
    (v : α) : objGet (objSet m k v) k = Option.some v := by
  induction m with
  | nil => simp [objSet, objGet]
  | cons kv rest ih =>
    by_cases h : kv.1 = k
    · simp [objSet, objGet, h]
    · simp [objSet, objGet, h, ih]

/-- Notification never changes the flag cache. -/
theorem notify_preserves_featureFlags (st : FeatureFlagProvider) :
    (notifyFeatureFlagChanged st).1.featureFlags = st.featureFlags := rfl

/-- C7: on a cache miss where the remote evaluation returns `null` or an
error, `evaluateFeatureFlag` returns `false` and caches `false` for that flag
and endpoint; no error propagates (the function is total). -/
theorem evaluateFeatureFlag_fail_closed (st : FeatureFlagProvider)
    (endpoint flagName : String) (remote : RemoteFlagValue)
    (hmiss : getFromCache st endpoint flagName = Option.none)
    (hfail : remote = RemoteFlagValue.null ∨ remote = RemoteFlagValue.err) :
    (evaluateFeatureFlag st endpoint flagName remote).2.1 = false ∧
    getFromCache (evaluateFeatureFlag st endpoint flagName remote).1
      endpoint flagName = Option.some false := by
  have hmain : ∀ r : RemoteFlagValue,
      r = RemoteFlagValue.null ∨ r = RemoteFlagValue.err →
      ∀ epFlags : FlagMap,
      (evaluateFeatureFlag.evaluateFeatureFlagMiss st endpoint flagName r
          epFlags).2.1 = false ∧
      getFromCache (evaluateFeatureFlag.evaluateFeatureFlagMiss st endpoint
          flagName r epFlags).1 endpoint flagName = Option.some false := by
    intro r hr epFlags
    rcases hr with h | h <;> subst h <;>
      unfold evaluateFeatureFlag.evaluateFeatureFlagMiss <;>
      exact ⟨by simp [objGet_objSet_self],
        by simp [getFromCache, notify_preserves_featureFlags, objGet_objSet_self]⟩
  unfold evaluateFeatureFlag
  unfold getFromCache at hmiss
  cases hep : objGet st.featureFlags endpoint with
  | none =>
    exact hmain remote hfail []
  | some epFlags =>
    rw [hep] at hmiss
    have hmiss2 : objGet epFlags flagName = Option.none := hmiss
    simp only [hmiss2]
    exact hmain remote hfail epFlags

/-- C7 witness: a fresh provider with a remote error caches and returns
`false`. -/
theorem evaluateFeatureFlag_fail_closed_witness :
    (evaluateFeatureFlag ffInitial "https://example.com"
        "cody-autocomplete-tracing" RemoteFlagValue.err).2.1 = false ∧
    getFromCache (evaluateFeatureFlag ffInitial "https://example.com"
        "cody-autocomplete-tracing" RemoteFlagValue.err).1 "https://example.com"
      "cody-autocomplete-tracing" = Option.some false :=
  evaluateFeatureFlag_fail_closed ffInitial "https://example.com"
    "cody-autocomplete-tracing" RemoteFlagValue.err (by decide) (Or.inr rfl)

/-- C8 (code bug): registering one subscription arms the refresh timer, but
invoking the unsubscribe function it returned is a no-op — the subscription
entry survives and the timer stays pending — because `onFeatureFlagChanged`
stores the fresh entry under `prefixFilter` while its unsubscribe closure
(and the map's documented `endpoint#prefix` key format) look it up under
`endpoint + '#' + prefixFilter`. -/
theorem ffTimer_survives_last_unsubscribe :
    (onFeatureFlagChanged ffInitial "https://example.com" "cody-" 0).1.nextRefreshTimeout
        = true ∧
    unsubscribeFresh (onFeatureFlagChanged ffInitial "https://example.com" "cody-" 0).1
        ("https://example.com" ++ "#" ++ "cody-") 0 =
      (onFeatureFlagChanged ffInitial "https://example.com" "cody-" 0).1 ∧
    (onFeatureFlagChanged ffInitial "https://example.com" "cody-" 0).1.subscriptions
        ≠ [] :=
  ⟨by decide, by decide, by decide⟩

/-- C9 (code bug): a subscription for endpoint `e` and prefix `p` is recorded
with the correct snapshot, yet a refresh that leaves `e`'s flags unchanged
fires its callback: the entry's map key is `p` (not `e#p`), so
`notifyFeatureFlagChanged` parses endpoint `p` and prefix `undefined` and
compares the wrong snapshot. -/
theorem ffNotify_fires_without_change :
    computeFeatureFlagSnapshot
        ((onFeatureFlagChanged (refreshFeatureFlags ffInitial "e"
            (Except.error ())).1 "e" "p" 0).1) "e" "p" =
      computeFeatureFlagSnapshot
        (refreshFeatureFlags ((onFeatureFlagChanged (refreshFeatureFlags
            ffInitial "e" (Except.error ())).1 "e" "p" 0).1) "e"
          (Except.ok [])).1 "e" "p" ∧
    objGet ((onFeatureFlagChanged (refreshFeatureFlags ffInitial "e"
        (Except.error ())).1 "e" "p" 0).1).subscriptions "p" =
      Option.some
        { lastSnapshot := computeFeatureFlagSnapshot
            ((onFeatureFlagChanged (refreshFeatureFlags ffInitial "e"
                (Except.error ())).1 "e" "p" 0).1) "e" "p"
          callbacks := [0] } ∧
    (refreshFeatureFlags ((onFeatureFlagChanged (refreshFeatureFlags ffInitial
        "e" (Except.error ())).1 "e" "p" 0).1) "e" (Except.ok [])).2 = [0] :=
  ⟨by decide, by decide, by decide⟩

end Cody
